import Mathlib

/-!
Verification of the rio io_uring NVMe micro-benchmark (src/rio.cpp).

The development shallowly embeds the components the specification talks about:
the LBA generator (`random_lba`), the percentile/statistics reporter
(`percentile`, `avgLat`, `minLat`, `maxLat`), the NVMe passthrough command
builders (`submit_read_passthrough_cmd`, `submit_write_passthrough_cmd`), the
device-path translation (`block_to_char_device`), the post-parse argument
validation (`args_valid`), and the submission/completion engine loop
(`runEngine`), modelled as a deterministic state machine driven by an explicit
kernel-interaction trace (per-iteration syscall return values and completion
entries) and an explicit steady-clock sequence `clk : ℕ → ℤ` read one tick at
a time, exactly in the order the source calls `Clock::now()`.

Machine integers are modelled as `ℕ`/`ℤ` with explicit `% 2 ^ 32` where the
source performs 32-bit arithmetic; `double` quantities (latencies, clock
values, percentiles) are modelled as `ℚ`, i.e. the source's arithmetic is
taken at its mathematical value.
-/

namespace Rio

/-! ## LBA generator (src/rio.cpp, `random_lba`, lines 388-399) -/

/-- Embedding of `random_lba`.  `std::uniform_int_distribution<uint64_t>(0, max_start)`
applied to the thread-local `mt19937_64` is abstracted by the oracle `draw`:
`draw max_start` stands for one sample of the distribution, which the C++
library guarantees lies in `[0, max_start]` and is uniform over that range. -/
def random_lba (max_lba block_lbas : ℕ) (draw : ℕ → ℕ) : ℕ :=
  if max_lba ≤ block_lbas then 0
  else draw (max_lba - block_lbas)

/-! ## Percentile and statistics (src/rio.cpp, `percentile` lines 427-438,
`print_metrics` lines 440-473) -/

/-- Embedding of `percentile(sorted_latencies, p)`.  The `(size_t)index` cast
truncates a non-negative `double` toward zero, i.e. takes its floor. -/
def percentile (sorted : List ℚ) (p : ℚ) : ℚ :=
  if sorted.isEmpty then 0
  else
    let index : ℚ := (p / 100) * ((sorted.length - 1 : ℕ) : ℚ)
    let lower : ℕ := ⌊index⌋.toNat
    let upper : ℕ := lower + 1
    if sorted.length ≤ upper then (sorted.getLast?).getD 0
    else
      let frac : ℚ := index - (lower : ℚ)
      sorted.getD lower 0 * (1 - frac) + sorted.getD upper 0 * frac

/-- The spec's percentile law, written exactly as the specification states it:
value at position `i = (p/100)·(n−1)` is `x[⌊i⌋]·(1−f) + x[⌈i⌉]·f` with
`f = i − ⌊i⌋`.  Used only to be compared against `percentile`. -/
def percentileSpec (x : List ℚ) (p : ℚ) : ℚ :=
  let i : ℚ := (p / 100) * ((x.length - 1 : ℕ) : ℚ)
  let f : ℚ := i - (⌊i⌋ : ℚ)
  x.getD (⌊i⌋.toNat) 0 * (1 - f) + x.getD (⌈i⌉.toNat) 0 * f

/-- Average latency as `print_metrics` computes it (0 on an empty ledger). -/
def avgLat (latencies : List ℚ) : ℚ :=
  if latencies.isEmpty then 0 else latencies.sum / (latencies.length : ℚ)

/-- Minimum latency: `sorted_lat.empty() ? 0.0 : sorted_lat.front()`. -/
def minLat (sorted : List ℚ) : ℚ :=
  match sorted with
  | [] => 0
  | x :: _ => x

/-- Maximum latency: `sorted_lat.empty() ? 0.0 : sorted_lat.back()`. -/
def maxLat (sorted : List ℚ) : ℚ :=
  (sorted.getLast?).getD 0

/-- The percentile fixture ledger `[1, 2, ..., 10]` from the spec. -/
def fixtureLedger : List ℚ := [1, 2, 3, 4, 5, 6, 7, 8, 9, 10]

/-! ## NVMe passthrough command layout (src/rio.cpp,
`submit_read_passthrough` lines 475-501, `submit_write_passthrough` lines
503-527).  `struct nvme_uring_cmd cmd = {}` zero-initialises every field; the
builders then set exactly the fields below.  All 32-bit stores are reduced
`% 2 ^ 32` (`data_len`, `cdw10`, `cdw11` take `uint32_t` casts / stores;
`blocks - 1` wraps in `uint32_t`). -/

/-- Field-for-field model of `struct nvme_uring_cmd`. -/
structure NvmeUringCmd where
  opcode : ℕ := 0
  flags : ℕ := 0
  rsvd1 : ℕ := 0
  nsid : ℕ := 0
  cdw2 : ℕ := 0
  cdw3 : ℕ := 0
  metadata : ℕ := 0
  addr : ℕ := 0
  metadata_len : ℕ := 0
  data_len : ℕ := 0
  cdw10 : ℕ := 0
  cdw11 : ℕ := 0
  cdw12 : ℕ := 0
  cdw13 : ℕ := 0
  cdw14 : ℕ := 0
  cdw15 : ℕ := 0
  timeout_ms : ℕ := 0
  rsvd2 : ℕ := 0
  deriving DecidableEq, Repr

/-- NVMe I/O opcode `nvme_cmd_read = 0x02`. -/
def nvme_cmd_read : ℕ := 2

/-- NVMe I/O opcode `nvme_cmd_write = 0x01`. -/
def nvme_cmd_write : ℕ := 1

/-- The embedded NVMe command built by `submit_read_passthrough` for buffer
address `addr`, starting LBA `lba` (a `uint64_t`) and `blocks` logical blocks
(a `uint32_t`). -/
def submit_read_passthrough_cmd (nsid lba_size addr lba blocks : ℕ) : NvmeUringCmd :=
  { opcode := nvme_cmd_read
    nsid := nsid
    addr := addr
    data_len := (blocks * lba_size) % 2 ^ 32
    cdw10 := lba % 2 ^ 32
    cdw11 := (lba / 2 ^ 32) % 2 ^ 32
    cdw12 := (blocks + (2 ^ 32 - 1)) % 2 ^ 32 }

/-- The embedded NVMe command built by `submit_write_passthrough`. -/
def submit_write_passthrough_cmd (nsid lba_size addr lba blocks : ℕ) : NvmeUringCmd :=
  { opcode := nvme_cmd_write
    nsid := nsid
    addr := addr
    data_len := (blocks * lba_size) % 2 ^ 32
    cdw10 := lba % 2 ^ 32
    cdw11 := (lba / 2 ^ 32) % 2 ^ 32
    cdw12 := (blocks + (2 ^ 32 - 1)) % 2 ^ 32 }

/-! ## Device path translation (src/rio.cpp, `block_to_char_device`, lines
249-301).  The symlink-resolution loop is filesystem I/O; the function below
models the classification/rewrite applied to the already-resolved path.
`std::string::find` returns the first occurrence; `replace(pos, 4, "ng")`
splices `"ng"` over the four characters at `pos`. -/

/-- Whether `pat` occurs at the head of `s`. -/
def matchesHere : List Char → List Char → Bool
  | [], _ => true
  | _ :: _, [] => false
  | p :: ps, c :: cs => p == c && matchesHere ps cs

/-- Index of the first occurrence of `pat` in `s` (`std::string::find`). -/
def findSub (pat : List Char) : List Char → Option ℕ
  | [] => if matchesHere pat [] then some 0 else none
  | c :: rest =>
    if matchesHere pat (c :: rest) then some 0
    else (findSub pat rest).map (fun k => k + 1)

/-- Whether `pat` occurs in `s` (`find(pat) != std::string::npos`). -/
def hasSub (s pat : List Char) : Bool :=
  (findSub pat s).isSome

/-- `std::string::replace(pos, len, rep)`. -/
def replaceAt (s : List Char) (pos len : ℕ) (rep : List Char) : List Char :=
  s.take pos ++ rep ++ s.drop (pos + len)

/-- The substring `"nvme"` (block-device family prefix). -/
def nvmeStr : List Char := "nvme".toList

/-- The substring `"ng"` (character-device family prefix). -/
def ngStr : List Char := "ng".toList

/-- Classification and rewrite of the resolved device path, returning the path
the caller proceeds with and whether the not-an-NVMe-device warning was
printed.  Mirrors lines 277-300 of the source. -/
def block_to_char_device (resolved : List Char) : List Char × Bool :=
  let has_nvme := hasSub resolved nvmeStr
  let has_ng := hasSub resolved ngStr
  if !has_nvme && !has_ng then (resolved, true)
  else if has_ng && !has_nvme then (resolved, false)
  else
    match findSub nvmeStr resolved with
    | some pos => (replaceAt resolved pos 4 ngStr, false)
    | none => (resolved, false)

/-! ## Argument validation (src/rio.cpp, `parse_args`, lines 194-212).  The
checks performed after `getopt_long`: required parameters present, either
`--size` or `--runtime` given, and a supported workload type.  `iodepth` and
`runtime` are C `int`s (so may be negative); `size` and `block_size` are
`size_t`s. -/

/-- The configuration as it stands after flag decoding, before validation. -/
structure ParsedArgs where
  filename : Option String
  typeStr : Option String
  size : ℕ
  runtime : ℤ
  iodepth : ℤ
  blockSize : ℕ
  deriving DecidableEq, Repr

/-- Workload type string `"randread"`. -/
def randreadS : String := "randread"

/-- Workload type string `"randwrite"`. -/
def randwriteS : String := "randwrite"

/-- Whether `parse_args` accepts the configuration (returns it) rather than
exiting with an argument error. -/
def args_valid (a : ParsedArgs) : Bool :=
  if a.filename.isNone || a.typeStr.isNone || a.iodepth == 0 || a.blockSize == 0 then false
  else if a.size == 0 && a.runtime == 0 then false
  else if !(a.typeStr == some randreadS || a.typeStr == some randwriteS) then false
  else true

/-- A configuration with both a byte budget and a runtime, and a negative
queue depth.  Used to probe the validation. -/
def permissiveArgs : ParsedArgs :=
  { filename := some "/dev/nvme0n1"
    typeStr := some randreadS
    size := 4096
    runtime := 1
    iodepth := -1
    blockSize := 512 }

/-! ## The engine loop (src/rio.cpp, `main`, lines 596-755).

The run is driven by two external inputs:
  * `clk : ℕ → ℤ`, the steady clock in nanoseconds: the `n`-th call of
    `Clock::now()` during the run returns `clk n` (the state carries the next
    tick index); and
  * a kernel-interaction trace: per loop iteration, the return values of the
    submit/wait calls and the list of completion entries that
    `io_uring_for_each_cqe` visits.

A completion entry is only valid if its user tag names a slot with an
operation in flight (this is the kernel's contract: every CQE corresponds to
a previously submitted, not yet reaped SQE); an invalid entry makes the run
ill-formed (`badCqe`) rather than modelling the resulting memory corruption.
The random LBA draws do not influence any book-keeping the claims are about,
so they are not threaded through the engine state. -/

/-- The `--submit` discipline (enum `SubmitMode`). -/
inductive SubmitMode where
  | submitAndWait
  | submit
  | sqpoll
  deriving DecidableEq, Repr

/-- One completion queue entry as the loop body reads it: the `res` field and
the user tag (the buffer/slot index stored at submission). -/
structure Cqe where
  res : ℤ
  userData : ℕ
  deriving DecidableEq, Repr

/-- Environment input for one iteration of the steady-state loop: `ret1` is
the return value of `io_uring_submit_and_wait` (submit-and-wait mode) or of
`io_uring_submit` (submit / sqpoll modes); `ret2` is the return value of
`io_uring_wait_cqe` (unused in submit-and-wait mode); `cqes` are the ready
completion entries visited by `io_uring_for_each_cqe`. -/
structure Iter where
  ret1 : ℤ
  ret2 : ℤ
  cqes : List Cqe
  deriving DecidableEq, Repr

/-- How a run aborts: `fatal_error` sites of the engine loop, plus the two
ways a kernel-interaction trace can be ill-formed (`badCqe`: a completion for
a slot with nothing in flight; `starved`: the trace ends while the loop still
needs completions). -/
inductive EngineError where
  | submitFailed (err : ℤ)
  | waitFailed (err : ℤ)
  | ioFailure (err : ℤ)
  | badCqe
  | starved
  deriving DecidableEq, Repr

/-- Engine book-keeping.  `submitted`, `completed`, `in_flight` are the
counters of lines 609-611 (`in_flight` is a C `int`, hence `ℤ`); `busy` and
`slotTime` record per-slot occupancy and the slot's `submit_time`
(`io_contexts[i].submit_time`); `latencies` is the latency ledger.  The
remaining fields are observers: `stamps` collects every value ever written to
a `submit_time`; `reissueDecisions` / `stopDecisions` collect the clock value
read by the duration-mode `should_submit` test, split by its outcome; `tick`
is the index of the next `Clock::now()` call. -/
structure EngineState where
  submitted : ℕ
  completed : ℕ
  in_flight : ℤ
  busy : List Bool
  slotTime : List ℤ
  latencies : List ℚ
  stamps : List ℤ
  reissueDecisions : List ℤ
  stopDecisions : List ℤ
  tick : ℕ
  deriving DecidableEq, Repr, Inhabited

/-- The workload parameters of lines 596-599. -/
structure EngineCfg where
  iodepth : ℕ
  timeBased : Bool
  totalOps : ℕ
  runtimeNs : ℤ
  mode : SubmitMode
  deriving DecidableEq, Repr

/-- Lines 596-599: `time_based = (runtime > 0)`;
`total_ops = time_based ? UINT64_MAX : size / block_size` (integer division
rounds the byte budget down); the deadline offset is `runtime` seconds in
nanoseconds. -/
def mkEngineCfg (size : ℕ) (runtime : ℤ) (iodepth : ℕ) (blockSize : ℕ)
    (mode : SubmitMode) : EngineCfg :=
  let timeBased := decide (0 < runtime)
  { iodepth := iodepth
    timeBased := timeBased
    totalOps := if timeBased then 2 ^ 64 - 1 else size / blockSize
    runtimeNs := if timeBased then runtime * 1000000000 else 0
    mode := mode }

/-- Condition of the steady-state `while` loop (line 659):
`in_flight > 0 || (!time_based && completed_ops < total_ops)`. -/
def loopCond (cfg : EngineCfg) (s : EngineState) : Bool :=
  decide (0 < s.in_flight) || (!cfg.timeBased && decide (s.completed < cfg.totalOps))

/-- One iteration of the prime loop body (lines 619-646): `buf_idx = in_flight`,
stamp `submit_time = Clock::now()`, build the submission for that slot,
`submitted_ops++; in_flight++`. -/
def primeStep (clk : ℕ → ℤ) (s : EngineState) : EngineState :=
  let bufIdx := s.in_flight.toNat
  let t := clk s.tick
  { s with
    slotTime := s.slotTime.set bufIdx t
    busy := s.busy.set bufIdx true
    stamps := s.stamps ++ [t]
    submitted := s.submitted + 1
    in_flight := s.in_flight + 1
    tick := s.tick + 1 }

/-- The prime loop (line 619): `while (submitted_ops < total_ops && in_flight
< iodepth)`.  Fuel-indexed; `iodepth` fuel always suffices to reach the exit
condition. -/
def primeLoop (cfg : EngineCfg) (clk : ℕ → ℤ) : ℕ → EngineState → EngineState
  | 0, s => s
  | fuel + 1, s =>
    if s.submitted < cfg.totalOps ∧ s.in_flight < (cfg.iodepth : ℤ) then
      primeLoop cfg clk fuel (primeStep clk s)
    else s

/-- Error handling of the submit/wait calls (lines 664-691): in submit mode a
negative `io_uring_submit` return is fatal at line 676 and then a negative
`io_uring_wait_cqe` return is fatal at line 690; in submit-and-wait mode the
single return value is checked at line 688; in sqpoll mode the
`io_uring_submit` return is discarded and only the wait return is checked.
There is no special case for any errno value. -/
def checkWait : SubmitMode → ℤ → ℤ → Option EngineError
  | .submitAndWait, r1, _ =>
    if r1 < 0 then some (.waitFailed r1) else none
  | .submit, r1, r2 =>
    if r1 < 0 then some (.submitFailed r1)
    else if r2 < 0 then some (.waitFailed r2) else none
  | .sqpoll, _, r2 =>
    if r2 < 0 then some (.waitFailed r2) else none

/-- Lines 704-715 of the completion-processing body: take the completion
timestamp, append `(complete - submit_time)/1000` to the ledger (the
`submit_time` of the slot named by the user tag), `completed_ops++;
in_flight--`, and mark the slot free. -/
def completeSlot (clk : ℕ → ℤ) (c : Cqe) (s : EngineState) : EngineState :=
  { s with
    latencies := s.latencies ++ [((clk s.tick - s.slotTime.getD c.userData 0 : ℤ) : ℚ) / 1000]
    completed := s.completed + 1
    in_flight := s.in_flight - 1
    busy := s.busy.set c.userData false
    tick := s.tick + 1 }

/-- Duration-mode reissue (lines 720-747) into the slot just reaped: stamp a
fresh `submit_time` with the next `Clock::now()` (one tick after the decision
read `t`), rebuild the submission, `submitted_ops++; in_flight++`. -/
def reissueDur (clk : ℕ → ℤ) (c : Cqe) (t : ℤ) (s1 : EngineState) : EngineState :=
  { s1 with
    slotTime := s1.slotTime.set c.userData (clk (s1.tick + 1))
    busy := s1.busy.set c.userData true
    stamps := s1.stamps ++ [clk (s1.tick + 1)]
    reissueDecisions := s1.reissueDecisions ++ [t]
    submitted := s1.submitted + 1
    in_flight := s1.in_flight + 1
    tick := s1.tick + 2 }

/-- Duration-mode non-reissue: the decision clock read `t` was at or past the
deadline; only the observer list records it. -/
def stopDur (t : ℤ) (s1 : EngineState) : EngineState :=
  { s1 with
    stopDecisions := s1.stopDecisions ++ [t]
    tick := s1.tick + 1 }

/-- Byte-budget-mode reissue (lines 720-747): the `should_submit` test reads
no clock; the `submit_time` stamp is the next `Clock::now()`. -/
def reissueByte (clk : ℕ → ℤ) (c : Cqe) (s1 : EngineState) : EngineState :=
  { s1 with
    slotTime := s1.slotTime.set c.userData (clk s1.tick)
    busy := s1.busy.set c.userData true
    stamps := s1.stamps ++ [clk s1.tick]
    submitted := s1.submitted + 1
    in_flight := s1.in_flight + 1
    tick := s1.tick + 1 }

/-- Processing of one completion entry (lines 697-748): a negative `res` is
fatal (`IOFailure`); otherwise the slot is reaped and the reissue decision is
taken — in duration mode by reading the clock again and comparing with the
deadline (line 718), in byte-budget mode by `submitted_ops < total_ops`. -/
def procCqe (cfg : EngineCfg) (clk : ℕ → ℤ) (deadline : ℤ) (c : Cqe)
    (s : EngineState) : Except EngineError EngineState :=
  if c.res < 0 then .error (.ioFailure c.res)
  else if c.userData < cfg.iodepth ∧ s.busy.getD c.userData false = true then
    if cfg.timeBased then
      if clk (completeSlot clk c s).tick < deadline then
        .ok (reissueDur clk c (clk (completeSlot clk c s).tick) (completeSlot clk c s))
      else .ok (stopDur (clk (completeSlot clk c s).tick) (completeSlot clk c s))
    else
      if (completeSlot clk c s).submitted < cfg.totalOps then
        .ok (reissueByte clk c (completeSlot clk c s))
      else .ok (completeSlot clk c s)
  else .error .badCqe

/-- Processing of all ready completion entries of one iteration, collecting
the state after each entry (the claim's observable boundaries). -/
def procCqes (cfg : EngineCfg) (clk : ℕ → ℤ) (deadline : ℤ) :
    List Cqe → EngineState → Except EngineError (EngineState × List EngineState)
  | [], s => .ok (s, [])
  | c :: cs, s =>
    match procCqe cfg clk deadline c s with
    | .error e => .error e
    | .ok s' =>
      (procCqes cfg clk deadline cs s').map (fun r => (r.1, s' :: r.2))

/-- One iteration of the steady-state loop: the submit/wait calls followed by
completion processing (`io_uring_cq_advance` keeps no modelled state). -/
def iterStep (cfg : EngineCfg) (clk : ℕ → ℤ) (deadline : ℤ) (it : Iter)
    (s : EngineState) : Except EngineError (EngineState × List EngineState) :=
  match checkWait cfg.mode it.ret1 it.ret2 with
  | some e => .error e
  | none => procCqes cfg clk deadline it.cqes s

/-- The steady-state loop (lines 659-751), consuming one `Iter` of the trace
per iteration; `starved` if the trace ends while the loop condition still
holds. -/
def mainLoop (cfg : EngineCfg) (clk : ℕ → ℤ) (deadline : ℤ) :
    List Iter → EngineState → Except EngineError (EngineState × List EngineState)
  | [], s => if loopCond cfg s then .error .starved else .ok (s, [])
  | it :: rest, s =>
    if loopCond cfg s then
      match iterStep cfg clk deadline it s with
      | .error e => .error e
      | .ok (s', obs) =>
        (mainLoop cfg clk deadline rest s').map (fun r => (r.1, obs ++ r.2))
    else .ok (s, [])

/-- Everything a completed run exposes: the deadline and start timestamp, the
state after the prime phase, the final state, every observable-boundary state
(after prime, then after each processed completion), and the end timestamp of
line 754. -/
structure RunResult where
  startTime : ℤ
  deadline : ℤ
  primed : EngineState
  final : EngineState
  obs : List EngineState
  endTime : ℤ
  deriving DecidableEq, Repr, Inhabited

/-- The zeroed book-keeping of lines 601-614; `startTick` is the tick at
which `start_time` was read, so the prime phase reads from `startTick + 1`. -/
def initState (cfg : EngineCfg) (startTick : ℕ) : EngineState :=
  { submitted := 0
    completed := 0
    in_flight := 0
    busy := List.replicate cfg.iodepth false
    slotTime := List.replicate cfg.iodepth 0
    latencies := []
    stamps := []
    reissueDecisions := []
    stopDecisions := []
    tick := startTick + 1 }

/-- The run from a computed deadline and start tick: prime the queue, flush
the initial batch (`io_uring_submit` of line 650, fatal if `initRet` is
negative), run the steady-state loop, and take the end timestamp (line 754). -/
def runEngineFrom (cfg : EngineCfg) (clk : ℕ → ℤ) (initRet : ℤ)
    (trace : List Iter) (deadline : ℤ) (startTick : ℕ) :
    Except EngineError RunResult :=
  let sp := primeLoop cfg clk cfg.iodepth (initState cfg startTick)
  if initRet < 0 then .error (.submitFailed initRet)
  else
    match mainLoop cfg clk deadline trace sp with
    | .error e => .error e
    | .ok (f, obs) =>
      .ok { startTime := clk startTick
            deadline := deadline
            primed := sp
            final := f
            obs := sp :: obs
            endTime := clk f.tick }

/-- The whole engine run, lines 596-755: the deadline of line 599 reads the
clock only in duration mode (the conditional operator evaluates one arm), so
`start_time` (line 614) is tick 1 in duration mode and tick 0 otherwise. -/
def runEngine (cfg : EngineCfg) (clk : ℕ → ℤ) (initRet : ℤ) (trace : List Iter) :
    Except EngineError RunResult :=
  if cfg.timeBased then
    runEngineFrom cfg clk initRet trace (clk 0 + cfg.runtimeNs) 1
  else
    runEngineFrom cfg clk initRet trace 0 0

/-- Projects a completed run out of the `Except` (default on error). -/
def runOk (x : Except EngineError RunResult) : RunResult :=
  match x with
  | .ok r => r
  | .error _ => default

/-- Whether the run completed without a fatal error. -/
def isOkRun (x : Except EngineError RunResult) : Bool :=
  match x with
  | .ok _ => true
  | .error _ => false

/-- The `errno` value `EAGAIN` (11 on Linux). -/
def EAGAIN : ℤ := 11

/-! ## Invariants and concrete probe inputs -/

/-- Number of occupied slots. -/
def countTrue : List Bool → ℕ
  | [] => 0
  | b :: l => (if b then 1 else 0) + countTrue l

/-- The engine's book-keeping invariant: the per-slot tables have one entry
per queue slot; `in_flight` equals the number of occupied slots and equals
`submitted - completed`; in byte-budget mode `submitted` never exceeds
`total_ops`; every duration-mode reissue was decided at a clock reading
strictly before the deadline and every stop decision at or after it; and (for
a monotone clock) every recorded stop-decision time is at most the clock at
the current tick. -/
def InvE (cfg : EngineCfg) (clk : ℕ → ℤ) (deadline : ℤ) (s : EngineState) : Prop :=
  s.busy.length = cfg.iodepth ∧
  s.slotTime.length = cfg.iodepth ∧
  s.in_flight = (countTrue s.busy : ℤ) ∧
  s.in_flight = (s.submitted : ℤ) - (s.completed : ℤ) ∧
  (cfg.timeBased = false → s.submitted ≤ cfg.totalOps) ∧
  (∀ t ∈ s.reissueDecisions, t < deadline) ∧
  (∀ t ∈ s.stopDecisions, deadline ≤ t) ∧
  (Monotone clk → ∀ t ∈ s.stopDecisions, t ≤ clk s.tick)

/-- Shape of the occupancy table during the prime phase: slots below
`in_flight` are busy, the rest are free (the prime loop fills slots
`0, 1, 2, …` in order). -/
def PrimePat (cfg : EngineCfg) (s : EngineState) : Prop :=
  ∀ j, j < cfg.iodepth → s.busy.getD j false = decide ((j : ℤ) < s.in_flight)

/-- A clock that never advances. -/
def clkZero : ℕ → ℤ := fun _ => 0

/-- A clock advancing one second per tick. -/
def clkLin : ℕ → ℤ := fun n => (n : ℤ) * 1000000000

/-- Byte-budget probe configuration: `--size=4096 --bs=4096 --iodepth=1
--submit=sqpoll`. -/
def cfgW1 : EngineCfg := mkEngineCfg 4096 0 1 4096 .sqpoll

/-- Trace for `cfgW1`: one iteration delivering the single completion. -/
def traceW1 : List Iter := [⟨1, 1, [⟨0, 0⟩]⟩]

/-- Byte-budget probe configuration: `--size=8192 --bs=4096 --iodepth=2
--submit=submit`. -/
def cfgW2 : EngineCfg := mkEngineCfg 8192 0 2 4096 .submit

/-- Trace for `cfgW2`: one iteration delivering both completions. -/
def traceW2 : List Iter := [⟨2, 1, [⟨0, 0⟩, ⟨0, 1⟩]⟩]

/-- Byte-budget probe configuration with queue depth 1 and a single
operation, default submit discipline. -/
def cfgC3 : EngineCfg := mkEngineCfg 4096 0 1 4096 .submitAndWait

/-- Duration probe configuration: `--runtime=1 --bs=4096 --iodepth=1`. -/
def cfgDur : EngineCfg := mkEngineCfg 0 1 1 4096 .submitAndWait

/-- Monotone clock (nanoseconds) witnessing the reissue-stamp race: the
reissue decision reads `999999999 < 10^9` (before the deadline) but the
`submit_time` stamp, taken by the next `Clock::now()` call, reads
`1000000001`, two nanoseconds later and past `start + T`. -/
def clkA : ℕ → ℤ
  | 0 => 0
  | 1 => 0
  | 2 => 1000
  | 3 => 500000
  | 4 => 999999999
  | 5 => 1000000001
  | 6 => 1500000000
  | 7 => 1600000000
  | _ => 1700000000

/-- Trace for `clkA`: the primed operation completes and is reissued once;
the reissue completes after the deadline and the run drains. -/
def traceA : List Iter := [⟨1, 1, [⟨0, 0⟩]⟩, ⟨1, 1, [⟨0, 0⟩]⟩]

/-- Monotone clock (nanoseconds) witnessing `elapsed < T`: the deadline is
computed at time 0 (line 599) but `start_time` (line 614) is only read at
`9·10^8`, so the run can drain at `1.05·10^9` with elapsed `1.5·10^8 < 10^9`. -/
def clkB : ℕ → ℤ
  | 0 => 0
  | 1 => 900000000
  | 2 => 910000000
  | 3 => 920000000
  | 4 => 1000000000
  | _ => 1050000000

/-- Trace for `clkB`: the primed operation completes at or after the deadline
and is not reissued. -/
def traceB : List Iter := [⟨1, 1, [⟨0, 0⟩]⟩]

/-! ## Helper lemmas about lists -/

theorem countTrue_le_length (l : List Bool) : countTrue l ≤ l.length := by
  induction l with
  | nil => simp [countTrue]
  | cons b t ih =>
    simp only [countTrue, List.length_cons]
    split <;> omega

theorem countTrue_pos_of_getD (l : List Bool) (i : ℕ) (h : l.getD i false = true) :
    0 < countTrue l := by
  induction l generalizing i with
  | nil => simp [List.getD_nil] at h
  | cons b t ih =>
    cases i with
    | zero =>
      rw [List.getD_cons_zero] at h
      simp [countTrue, h]
    | succ k =>
      rw [List.getD_cons_succ] at h
      have := ih k h
      simp only [countTrue]
      omega

theorem countTrue_set_false (l : List Bool) (i : ℕ) (h : l.getD i false = true) :
    countTrue (l.set i false) + 1 = countTrue l := by
  induction l generalizing i with
  | nil => simp [List.getD_nil] at h
  | cons b t ih =>
    cases i with
    | zero =>
      rw [List.getD_cons_zero] at h
      subst h
      simp [List.set_cons_zero, countTrue]
      omega
    | succ k =>
      rw [List.getD_cons_succ] at h
      have := ih k h
      simp only [List.set_cons_succ, countTrue]
      omega

theorem countTrue_set_true (l : List Bool) (i : ℕ) (hi : i < l.length)
    (h : l.getD i false = false) :
    countTrue (l.set i true) = countTrue l + 1 := by
  induction l generalizing i with
  | nil => simp at hi
  | cons b t ih =>
    cases i with
    | zero =>
      rw [List.getD_cons_zero] at h
      subst h
      simp [List.set_cons_zero, countTrue]
      omega
    | succ k =>
      rw [List.getD_cons_succ] at h
      have hk : k < t.length := by simpa using hi
      have := ih k hk h
      simp only [List.set_cons_succ, countTrue]
      omega

theorem getD_set_self {α : Type} (l : List α) (i : ℕ) (a d : α) (h : i < l.length) :
    (l.set i a).getD i d = a := by
  induction l generalizing i with
  | nil => simp at h
  | cons x xs ih =>
    cases i with
    | zero => rw [List.set_cons_zero, List.getD_cons_zero]
    | succ k =>
      rw [List.set_cons_succ, List.getD_cons_succ]
      exact ih k (by simpa using h)

theorem getD_set_other {α : Type} (l : List α) (i j : ℕ) (a d : α) (h : i ≠ j) :
    (l.set i a).getD j d = l.getD j d := by
  induction l generalizing i j with
  | nil => simp
  | cons x xs ih =>
    cases i with
    | zero =>
      cases j with
      | zero => exact absurd rfl h
      | succ k => rw [List.set_cons_zero, List.getD_cons_succ, List.getD_cons_succ]
    | succ m =>
      cases j with
      | zero => rw [List.set_cons_succ, List.getD_cons_zero, List.getD_cons_zero]
      | succ k =>
        rw [List.set_cons_succ, List.getD_cons_succ, List.getD_cons_succ]
        exact ih m k (by omega)

theorem getD_replicate_false (n j : ℕ) : (List.replicate n false).getD j false = false := by
  induction n generalizing j with
  | zero => simp
  | succ m ih =>
    cases j with
    | zero => rw [List.replicate_succ, List.getD_cons_zero]
    | succ k => rw [List.replicate_succ, List.getD_cons_succ]; exact ih k

theorem countTrue_replicate_false (n : ℕ) : countTrue (List.replicate n false) = 0 := by
  induction n with
  | zero => rfl
  | succ m ih => simp [List.replicate_succ, countTrue, ih]

theorem getLastD_eq_getD : ∀ (x : List ℚ), x ≠ [] →
    (x.getLast?).getD 0 = x.getD (x.length - 1) 0
  | [], h => absurd rfl h
  | [a], _ => rfl
  | a :: b :: t, _ => by
    have ih := getLastD_eq_getD (b :: t) (by simp)
    rw [List.getLast?_cons_cons, ih]
    have hlen : (a :: b :: t).length - 1 = ((b :: t).length - 1) + 1 := by
      simp [List.length_cons]
    rw [hlen, List.getD_cons_succ]

/-! ## C5: the LBA generator -/

/-- C5: for every `nlba` and `block_lbas`, `random_lba` returns 0 when
`nlba ≤ block_lbas`; otherwise it returns a value `L ≤ nlba - block_lbas`
(for any draw respecting the distribution's range contract), and as the
uniform sample ranges over `[0, nlba - block_lbas]` each admissible `L` is
produced by exactly one sample, so the output is uniform over that interval
exactly when the library draw is. -/
theorem random_lba_range_uniform (max_lba block_lbas : ℕ) (draw : ℕ → ℕ)
    (hdraw : ∀ m, draw m ≤ m) :
    (max_lba ≤ block_lbas → random_lba max_lba block_lbas draw = 0) ∧
    (block_lbas < max_lba → random_lba max_lba block_lbas draw ≤ max_lba - block_lbas) ∧
    (block_lbas < max_lba → ∀ L ≤ max_lba - block_lbas,
      ((Finset.range (max_lba - block_lbas + 1)).filter
        (fun u => random_lba max_lba block_lbas (fun _ => u) = L)).card = 1) := by
  refine ⟨fun h => by simp [random_lba, h], fun h => ?_, fun h L hL => ?_⟩
  · rw [random_lba, if_neg (not_le.mpr h)]
    exact hdraw _
  · have heq : ∀ u : ℕ, random_lba max_lba block_lbas (fun _ => u) = u := by
      intro u
      rw [random_lba, if_neg (not_le.mpr h)]
    have : ((Finset.range (max_lba - block_lbas + 1)).filter
        (fun u => random_lba max_lba block_lbas (fun _ => u) = L)) =
        ((Finset.range (max_lba - block_lbas + 1)).filter (fun u => u = L)) := by
      apply Finset.filter_congr
      intro u _
      simp [heq u]
    rw [this, Finset.filter_eq']
    rw [if_pos (Finset.mem_range.mpr (by omega))]
    exact Finset.card_singleton L

/-- Witness for C5 at `nlba = 10`, `block_lbas = 3` (and the degenerate
`nlba = 3`, `block_lbas = 10`), with the identity draw. -/
theorem random_lba_range_uniform_witness :
    random_lba 3 10 id = 0 ∧ random_lba 10 3 id ≤ 7 ∧
    ((Finset.range 8).filter (fun u => random_lba 10 3 (fun _ => u) = 5)).card = 1 := by
  have h1 := (random_lba_range_uniform 3 10 id fun m => le_refl m).1 (by norm_num)
  have h2 := (random_lba_range_uniform 10 3 id fun m => le_refl m).2.1 (by norm_num)
  have h3 := (random_lba_range_uniform 10 3 id fun m => le_refl m).2.2 (by norm_num) 5 (by norm_num)
  exact ⟨h1, h2, h3⟩

/-! ## C7: percentile law and fixture -/

theorem percentile_cases (x : List ℚ) (p : ℚ) (hx : x.isEmpty = false) :
    percentile x p =
      if x.length ≤ ⌊(p / 100) * ((x.length - 1 : ℕ) : ℚ)⌋.toNat + 1 then
        (x.getLast?).getD 0
      else
        x.getD ⌊(p / 100) * ((x.length - 1 : ℕ) : ℚ)⌋.toNat 0 *
            (1 - ((p / 100) * ((x.length - 1 : ℕ) : ℚ) -
              ((⌊(p / 100) * ((x.length - 1 : ℕ) : ℚ)⌋.toNat : ℕ) : ℚ))) +
          x.getD (⌊(p / 100) * ((x.length - 1 : ℕ) : ℚ)⌋.toNat + 1) 0 *
            ((p / 100) * ((x.length - 1 : ℕ) : ℚ) -
              ((⌊(p / 100) * ((x.length - 1 : ℕ) : ℚ)⌋.toNat : ℕ) : ℚ)) := by
  unfold percentile
  rw [if_neg (by simp [hx])]

theorem percentileSpec_explicit (x : List ℚ) (p : ℚ) :
    percentileSpec x p =
      x.getD ⌊(p / 100) * ((x.length - 1 : ℕ) : ℚ)⌋.toNat 0 *
          (1 - ((p / 100) * ((x.length - 1 : ℕ) : ℚ) -
            ((⌊(p / 100) * ((x.length - 1 : ℕ) : ℚ)⌋ : ℤ) : ℚ))) +
        x.getD (⌈(p / 100) * ((x.length - 1 : ℕ) : ℚ)⌉.toNat) 0 *
          ((p / 100) * ((x.length - 1 : ℕ) : ℚ) -
            ((⌊(p / 100) * ((x.length - 1 : ℕ) : ℚ)⌋ : ℤ) : ℚ)) := rfl

theorem percentile_eq_spec (x : List ℚ) (p : ℚ) (hx : x ≠ []) (hp0 : 0 ≤ p)
    (hp1 : p ≤ 100) : percentile x p = percentileSpec x p := by
  have hxe : x.isEmpty = false := by
    cases x with
    | nil => exact absurd rfl hx
    | cons a t => rfl
  have hn : 1 ≤ x.length := List.length_pos.mpr hx
  rw [percentile_cases x p hxe, percentileSpec_explicit]
  set i : ℚ := (p / 100) * ((x.length - 1 : ℕ) : ℚ) with hidef
  have hi0 : 0 ≤ i := mul_nonneg (div_nonneg hp0 (by norm_num)) (Nat.cast_nonneg _)
  have hp100 : p / 100 ≤ 1 := (div_le_one (by norm_num)).mpr hp1
  have hiN : i ≤ ((x.length - 1 : ℕ) : ℚ) := by
    calc i ≤ 1 * ((x.length - 1 : ℕ) : ℚ) :=
          mul_le_mul_of_nonneg_right hp100 (Nat.cast_nonneg _)
      _ = ((x.length - 1 : ℕ) : ℚ) := one_mul _
  have hfl0 : 0 ≤ ⌊i⌋ := Int.floor_nonneg.mpr hi0
  have hflN : ⌊i⌋ ≤ ((x.length - 1 : ℕ) : ℤ) := by
    have h := Int.floor_le_floor hiN
    rwa [Int.floor_natCast] at h
  have htnQ : ((⌊i⌋.toNat : ℕ) : ℚ) = ((⌊i⌋ : ℤ) : ℚ) := by
    exact_mod_cast Int.toNat_of_nonneg hfl0
  by_cases hcase : x.length ≤ ⌊i⌋.toNat + 1
  · rw [if_pos hcase]
    have htn1 : ⌊i⌋.toNat ≤ x.length - 1 := by omega
    have hA : ⌊i⌋.toNat = x.length - 1 := by omega
    have hflz : ⌊i⌋ = ((x.length - 1 : ℕ) : ℤ) := by omega
    have hieq : i = ((x.length - 1 : ℕ) : ℚ) := by
      refine le_antisymm hiN ?_
      calc ((x.length - 1 : ℕ) : ℚ) = ((⌊i⌋ : ℤ) : ℚ) := by rw [hflz]; push_cast; ring
        _ ≤ i := Int.floor_le i
    have hf0 : i - ((⌊i⌋ : ℤ) : ℚ) = 0 := by
      rw [hflz, hieq]; push_cast; ring
    have hB : ⌈i⌉.toNat = x.length - 1 := by
      have : ⌈i⌉ = ((x.length - 1 : ℕ) : ℤ) := by
        rw [hieq, Int.ceil_natCast]
      omega
    rw [hA, hB, hf0, getLastD_eq_getD x hx]
    ring
  · rw [if_neg hcase]
    rw [htnQ]
    by_cases hf : i = ((⌊i⌋ : ℤ) : ℚ)
    · rw [← hf]
      ring
    · have h1 : ((⌊i⌋ : ℤ) : ℚ) < i := lt_of_le_of_ne (Int.floor_le i) (fun h => hf h.symm)
      have h2 : ⌊i⌋ < ⌈i⌉ := Int.lt_ceil.mpr h1
      have h3 : ⌈i⌉ ≤ ⌊i⌋ + 1 := by
        refine Int.ceil_le.mpr ?_
        have := Int.lt_floor_add_one i
        push_cast
        linarith
      have hce : ⌈i⌉ = ⌊i⌋ + 1 := le_antisymm h3 h2
      have hcn : ⌈i⌉.toNat = ⌊i⌋.toNat + 1 := by omega
      rw [hcn]

/-- C7: for every non-empty sorted sample and percentile `0 ≤ p ≤ 100`, the
value reported by `percentile` equals the spec's linear-interpolation law
`x[⌊i⌋]·(1−f) + x[⌈i⌉]·f` at `i = (p/100)·(n−1)`, `f = i − ⌊i⌋` (the code's
top clamp coincides with the law at `i = n−1`); and on the fixture ledger
`[1..10]` it yields p50 = 5.5, p95 = 9.55, p99 = 9.91, min = 1, max = 10,
mean = 5.5. -/
theorem percentile_law_and_fixture :
    (∀ (x : List ℚ) (p : ℚ), x ≠ [] → 0 ≤ p → p ≤ 100 →
        percentile x p = percentileSpec x p) ∧
    percentile fixtureLedger 50 = 11 / 2 ∧
    percentile fixtureLedger 95 = 191 / 20 ∧
    percentile fixtureLedger 99 = 991 / 100 ∧
    minLat fixtureLedger = 1 ∧
    maxLat fixtureLedger = 10 ∧
    avgLat fixtureLedger = 11 / 2 := by
  refine ⟨percentile_eq_spec, ?_, ?_, ?_, ?_, ?_, ?_⟩
  · rw [percentile_cases fixtureLedger 50 (by rfl)]
    have h4 : (4 : ℤ).toNat = 4 := rfl
    norm_num [fixtureLedger, h4]
  · rw [percentile_cases fixtureLedger 95 (by rfl)]
    have h8 : (8 : ℤ).toNat = 8 := rfl
    norm_num [fixtureLedger, h8]
  · rw [percentile_cases fixtureLedger 99 (by rfl)]
    have h8 : (8 : ℤ).toNat = 8 := rfl
    norm_num [fixtureLedger, h8]
  · rfl
  · norm_num [maxLat, fixtureLedger]
  · norm_num [avgLat, fixtureLedger]

/-- Witness for C7: the law applied to the fixture at p95. -/
theorem percentile_law_and_fixture_witness :
    percentile fixtureLedger 95 = percentileSpec fixtureLedger 95 :=
  percentile_law_and_fixture.1 fixtureLedger 95 (by decide) (by norm_num) (by norm_num)

/-! ## C10: empty ledger -/

theorem primeLoop_stuck (cfg : EngineCfg) (clk : ℕ → ℤ) (n : ℕ) (s : EngineState)
    (h : ¬ (s.submitted < cfg.totalOps ∧ s.in_flight < (cfg.iodepth : ℤ))) :
    primeLoop cfg clk n s = s := by
  cases n with
  | zero => rfl
  | succ k =>
    simp only [primeLoop]
    rw [if_neg h]

/-- C10: the statistics stage is total on an empty ledger — `percentile`
returns 0 for every `p`, and min, max and mean are all reported as 0 — and a
byte-budget run with `B < S` (so `total_ops = B / S = 0`) submits nothing,
terminates cleanly and leaves the ledger empty. -/
theorem empty_ledger_stats (p : ℚ) (B S D : ℕ) (m : SubmitMode) (clk : ℕ → ℤ)
    (initRet : ℤ) (hBS : B < S) (hinit : 0 ≤ initRet) :
    percentile [] p = 0 ∧ avgLat [] = 0 ∧ minLat [] = 0 ∧ maxLat [] = 0 ∧
    isOkRun (runEngine (mkEngineCfg B 0 D S m) clk initRet []) = true ∧
    (runOk (runEngine (mkEngineCfg B 0 D S m) clk initRet [])).final.completed = 0 ∧
    (runOk (runEngine (mkEngineCfg B 0 D S m) clk initRet [])).final.latencies = [] := by
  have htb : (mkEngineCfg B 0 D S m).timeBased = false := by
    simp [mkEngineCfg]
  have hto : (mkEngineCfg B 0 D S m).totalOps = 0 := by
    simp [mkEngineCfg, Nat.div_eq_of_lt hBS]
  have hstuck : primeLoop (mkEngineCfg B 0 D S m) clk (mkEngineCfg B 0 D S m).iodepth
      (initState (mkEngineCfg B 0 D S m) 0) = initState (mkEngineCfg B 0 D S m) 0 :=
    primeLoop_stuck _ _ _ _ (by simp [initState, hto])
  have hlc : loopCond (mkEngineCfg B 0 D S m) (initState (mkEngineCfg B 0 D S m) 0) = false := by
    simp [loopCond, initState, hto]
  have hrun : runEngine (mkEngineCfg B 0 D S m) clk initRet [] =
      .ok { startTime := clk 0
            deadline := 0
            primed := initState (mkEngineCfg B 0 D S m) 0
            final := initState (mkEngineCfg B 0 D S m) 0
            obs := [initState (mkEngineCfg B 0 D S m) 0]
            endTime := clk (initState (mkEngineCfg B 0 D S m) 0).tick } := by
    rw [runEngine, if_neg (by simp [htb])]
    simp only [runEngineFrom, hstuck]
    rw [if_neg (not_lt.mpr hinit)]
    simp only [mainLoop, hlc]
    rfl
  refine ⟨rfl, rfl, rfl, rfl, ?_, ?_, ?_⟩ <;> rw [hrun] <;> rfl

/-- Witness for C10 at `p = 50`, `B = 100 < S = 4096`, `D = 3`. -/
theorem empty_ledger_stats_witness :
    percentile [] 50 = 0 ∧ avgLat [] = 0 ∧ minLat [] = 0 ∧ maxLat [] = 0 ∧
    isOkRun (runEngine (mkEngineCfg 100 0 3 4096 .submitAndWait) clkZero 1 []) = true ∧
    (runOk (runEngine (mkEngineCfg 100 0 3 4096 .submitAndWait) clkZero 1 [])).final.completed
      = 0 ∧
    (runOk (runEngine (mkEngineCfg 100 0 3 4096 .submitAndWait) clkZero 1 [])).final.latencies
      = [] :=
  empty_ledger_stats 50 100 4096 3 .submitAndWait clkZero 1 (by norm_num) (by norm_num)

/-! ## C6: passthrough command layout -/

/-- C6: for every passthrough submission built with `block_lbas = S / lba_size`
blocks (`S` the block size, a positive multiple of `lba_size` below `2^32`;
the LBA a `uint64_t`), the embedded NVMe command has read opcode 0x02 resp.
write opcode 0x01, the device nsid, the buffer address, data length
`block_lbas * lba_size = S`, `cdw10 = L & 0xFFFFFFFF`, `cdw11 = L >> 32`,
`cdw12 = block_lbas - 1`, and every other command word zero (all remaining
fields of the right-hand structure literals default to 0). -/
theorem passthrough_cmd_layout (nsid lba_size addr lba S : ℕ)
    (hls : 0 < lba_size) (hdvd : lba_size ∣ S) (hS0 : 0 < S) (hS32 : S < 2 ^ 32)
    (hlba : lba < 2 ^ 64) :
    submit_read_passthrough_cmd nsid lba_size addr lba (S / lba_size) =
      { opcode := 2
        nsid := nsid
        addr := addr
        data_len := S
        cdw10 := lba % 2 ^ 32
        cdw11 := lba / 2 ^ 32
        cdw12 := S / lba_size - 1 } ∧
    submit_write_passthrough_cmd nsid lba_size addr lba (S / lba_size) =
      { opcode := 1
        nsid := nsid
        addr := addr
        data_len := S
        cdw10 := lba % 2 ^ 32
        cdw11 := lba / 2 ^ 32
        cdw12 := S / lba_size - 1 } := by
  have hmul : S / lba_size * lba_size = S := Nat.div_mul_cancel hdvd
  have hb1 : 1 ≤ S / lba_size := (Nat.one_le_div_iff hls).mpr (Nat.le_of_dvd hS0 hdvd)
  have hdata : (S / lba_size * lba_size) % 2 ^ 32 = S := by
    rw [hmul]
    exact Nat.mod_eq_of_lt hS32
  have hcdw11 : (lba / 2 ^ 32) % 2 ^ 32 = lba / 2 ^ 32 := by
    refine Nat.mod_eq_of_lt ?_
    rw [Nat.div_lt_iff_lt_mul (by norm_num : 0 < 2 ^ 32)]
    calc lba < 2 ^ 64 := hlba
      _ = 2 ^ 32 * 2 ^ 32 := by norm_num
  have hcdw12 : (S / lba_size + (2 ^ 32 - 1)) % 2 ^ 32 = S / lba_size - 1 := by
    have hble : S / lba_size < 2 ^ 32 := lt_of_le_of_lt (Nat.div_le_self S lba_size) hS32
    have h1 : S / lba_size + (2 ^ 32 - 1) = (S / lba_size - 1) + 2 ^ 32 := by omega
    rw [h1, Nat.add_mod_right]
    exact Nat.mod_eq_of_lt (by omega)
  constructor
  · simp only [submit_read_passthrough_cmd, nvme_cmd_read, hdata, hcdw11, hcdw12]
  · simp only [submit_write_passthrough_cmd, nvme_cmd_write, hdata, hcdw11, hcdw12]

/-- Witness for C6 at nsid 1, `lba_size = 512`, `S = 4096` (so 8 blocks),
LBA `3 · 2^32 + 5` (exercising the 32-bit split). -/
theorem passthrough_cmd_layout_witness :
    (submit_read_passthrough_cmd 1 512 4096 (3 * 2 ^ 32 + 5) (4096 / 512)).cdw10 = 5 ∧
    (submit_read_passthrough_cmd 1 512 4096 (3 * 2 ^ 32 + 5) (4096 / 512)).cdw11 = 3 ∧
    (submit_write_passthrough_cmd 1 512 4096 (3 * 2 ^ 32 + 5) (4096 / 512)).cdw12 = 7 ∧
    (submit_read_passthrough_cmd 1 512 4096 (3 * 2 ^ 32 + 5) (4096 / 512)).data_len = 4096 := by
  have h := passthrough_cmd_layout 1 512 4096 (3 * 2 ^ 32 + 5) 4096 (by norm_num)
    (by norm_num) (by norm_num) (by norm_num) (by norm_num)
  refine ⟨?_, ?_, ?_, ?_⟩
  · rw [h.1]
    norm_num
  · rw [h.1]
    norm_num
  · rw [h.2]
  · rw [h.1]

/-! ## C8: argument validation -/

/-- C8 counterexample: `parse_args` accepts a configuration with both a byte
budget and a runtime and with a negative queue depth: the only depth check is
`iodepth == 0` and the only budget/runtime check is that not both are zero. -/
theorem args_validation_counterexample :
    args_valid permissiveArgs = true ∧ permissiveArgs.iodepth < 1 ∧
    permissiveArgs.size ≠ 0 ∧ permissiveArgs.runtime ≠ 0 := by decide

/-- C8 amended: validation accepts exactly when filename and type are
present, `iodepth ≠ 0` (negative depths pass), `block_size ≠ 0`, not both of
size and runtime are zero (both non-zero is accepted, runtime later taking
precedence), and the type is `randread` or `randwrite`. -/
theorem args_validation_amended (a : ParsedArgs) :
    args_valid a = true ↔
      (a.filename.isSome = true ∧ a.typeStr.isSome = true ∧ a.iodepth ≠ 0 ∧
       a.blockSize ≠ 0 ∧ ¬(a.size = 0 ∧ a.runtime = 0) ∧
       (a.typeStr = some randreadS ∨ a.typeStr = some randwriteS)) := by
  unfold args_valid
  split_ifs with h1 h2 h3 <;>
    simp_all [Option.isNone_iff_eq_none, Option.isSome_iff_ne_none] <;>
    tauto

/-- Witness for C8 amended: a fully valid configuration is accepted. -/
theorem args_validation_amended_witness :
    args_valid { filename := some "/dev/nvme0n1", typeStr := some randreadS,
                 size := 0, runtime := 30, iodepth := 4, blockSize := 4096 } = true :=
  (args_validation_amended _).mpr
    ⟨rfl, rfl, by norm_num, by norm_num, by norm_num, Or.inl rfl⟩

/-! ## C9: device path translation -/

/-- C9 counterexample: a resolved path containing both `"nvme"` and `"ng"`
(here `"ngnvme"`) is rewritten (first `"nvme"` replaced, yielding `"ngng"`)
with no warning, whereas the claim prescribes a warning and proceeding with
the path unchanged for that case. -/
theorem device_translation_counterexample :
    hasSub ("ngnvme".toList) nvmeStr = true ∧
    hasSub ("ngnvme".toList) ngStr = true ∧
    block_to_char_device ("ngnvme".toList) = ("ngng".toList, false) := by decide

/-- C9 amended: on the symlink-resolved path, if it contains `"nvme"` the
first occurrence is replaced by `"ng"` (whether or not `"ng"` is also
present, with no warning); if it contains `"ng"` and not `"nvme"` it is kept
unchanged; if it contains neither, the warning is emitted and the path kept
unchanged. -/
theorem device_translation_amended (s : List Char) :
    (hasSub s nvmeStr = false → hasSub s ngStr = false →
      block_to_char_device s = (s, true)) ∧
    (hasSub s ngStr = true → hasSub s nvmeStr = false →
      block_to_char_device s = (s, false)) ∧
    (∀ pos, findSub nvmeStr s = some pos →
      block_to_char_device s = (replaceAt s pos 4 ngStr, false)) := by
  refine ⟨fun h1 h2 => ?_, fun h1 h2 => ?_, fun pos hp => ?_⟩
  · simp [block_to_char_device, h1, h2]
  · simp [block_to_char_device, h1, h2]
  · have h1 : hasSub s nvmeStr = true := by simp [hasSub, hp]
    simp [block_to_char_device, h1, hp]

/-- Witness for C9 amended: a non-NVMe path warns and passes through; a plain
block-device path gets its `"nvme"` replaced. -/
theorem device_translation_amended_witness :
    block_to_char_device ("/dev/sda".toList) = ("/dev/sda".toList, true) ∧
    block_to_char_device ("nvme0n1".toList) =
      (replaceAt ("nvme0n1".toList) 0 4 ngStr, false) :=
  ⟨(device_translation_amended _).1 (by decide) (by decide),
   (device_translation_amended _).2.2 0 (by decide)⟩

/-! ## C3: error handling of the submit/wait calls -/

/-- C3 counterexample: `-EAGAIN` returned by the submit-and-wait call aborts
the run: there is no EAGAIN special case at lines 688-691 of the source, so
the primed run with one in-flight operation dies with `waitFailed (-11)`
instead of continuing. -/
theorem eagain_fatal_counterexample :
    runEngine cfgC3 clkZero 1 [⟨-EAGAIN, 1, []⟩] =
      .error (.waitFailed (-EAGAIN)) := by rfl

/-- C3 amended: every checked negative return from the submit/wait calls is
fatal with no errno special case — in submit-and-wait mode the single return
is checked, so `-EAGAIN` is fatal; in submit mode the submit return and then
the wait return are checked; in sqpoll mode the submit return is ignored and
only the wait return is checked. -/
theorem wait_error_handling_amended (r1 r2 : ℤ) (cfg : EngineCfg) (clk : ℕ → ℤ)
    (dl : ℤ) (cqes : List Cqe) (s : EngineState) :
    (checkWait .submitAndWait (-EAGAIN) r2 = some (.waitFailed (-EAGAIN))) ∧
    (r1 < 0 → checkWait .submitAndWait r1 r2 = some (.waitFailed r1)) ∧
    (0 ≤ r1 → checkWait .submitAndWait r1 r2 = none) ∧
    (r1 < 0 → checkWait .submit r1 r2 = some (.submitFailed r1)) ∧
    (0 ≤ r1 → r2 < 0 → checkWait .submit r1 r2 = some (.waitFailed r2)) ∧
    (0 ≤ r1 → 0 ≤ r2 → checkWait .submit r1 r2 = none) ∧
    (r2 < 0 → checkWait .sqpoll r1 r2 = some (.waitFailed r2)) ∧
    (0 ≤ r2 → checkWait .sqpoll r1 r2 = none) ∧
    (cfg.mode = .submitAndWait → r1 < 0 →
      iterStep cfg clk dl ⟨r1, r2, cqes⟩ s = .error (.waitFailed r1)) ∧
    (cfg.mode = .sqpoll → 0 ≤ r2 →
      iterStep cfg clk dl ⟨r1, r2, cqes⟩ s = procCqes cfg clk dl cqes s) := by
  refine ⟨?_, ?_, ?_, ?_, ?_, ?_, ?_, ?_, ?_, ?_⟩
  · norm_num [checkWait, EAGAIN]
  · intro h
    simp [checkWait, h]
  · intro h
    simp [checkWait, not_lt.mpr h]
  · intro h
    simp [checkWait, h]
  · intro h1 h2
    simp [checkWait, not_lt.mpr h1, h2]
  · intro h1 h2
    simp [checkWait, not_lt.mpr h1, not_lt.mpr h2]
  · intro h
    simp [checkWait, h]
  · intro h
    simp [checkWait, not_lt.mpr h]
  · intro hm h
    simp [iterStep, hm, checkWait, h]
  · intro hm h
    simp [iterStep, hm, checkWait, not_lt.mpr h]

/-- Witness for C3 amended at concrete return values. -/
theorem wait_error_handling_amended_witness :
    checkWait .submitAndWait (-EAGAIN) 0 = some (.waitFailed (-EAGAIN)) ∧
    checkWait .submit (-1) 0 = some (.submitFailed (-1)) ∧
    checkWait .sqpoll (-5) 0 = none :=
  ⟨(wait_error_handling_amended (-1) 0 cfgC3 clkZero 0 [] default).1,
   (wait_error_handling_amended (-1) 0 cfgC3 clkZero 0 [] default).2.2.2.1 (by norm_num),
   (wait_error_handling_amended (-5) 0 cfgC3 clkZero 0 [] default).2.2.2.2.2.2.2.1
     (by norm_num)⟩

/-! ## Engine invariant preservation -/

theorem primeStep_inv (cfg : EngineCfg) (clk : ℕ → ℤ) (dl : ℤ) (s : EngineState)
    (hg : s.submitted < cfg.totalOps ∧ s.in_flight < (cfg.iodepth : ℤ))
    (hI : InvE cfg clk dl s) (hP : PrimePat cfg s) (hC : s.completed = 0) :
    InvE cfg clk dl (primeStep clk s) ∧ PrimePat cfg (primeStep clk s) ∧
    (primeStep clk s).completed = 0 := by
  obtain ⟨hbl, hsl, hcnt, hacc, hsub, hre, hst, htb⟩ := hI
  have hnn : 0 ≤ s.in_flight := by
    rw [hcnt]
    exact Int.natCast_nonneg _
  have hcast : (s.in_flight.toNat : ℤ) = s.in_flight := Int.toNat_of_nonneg hnn
  have hidxD : s.in_flight.toNat < cfg.iodepth := by
    have h2 := hg.2
    omega
  have hbusyF : s.busy.getD s.in_flight.toNat false = false := by
    have hh := hP s.in_flight.toNat hidxD
    rw [hcast] at hh
    simpa using hh
  have hlen : s.in_flight.toNat < s.busy.length := by
    rw [hbl]
    exact hidxD
  have hcount : countTrue (s.busy.set s.in_flight.toNat true) = countTrue s.busy + 1 :=
    countTrue_set_true _ _ hlen hbusyF
  refine ⟨⟨?_, ?_, ?_, ?_, ?_, ?_, ?_, ?_⟩, ?_, hC⟩
  · show (s.busy.set s.in_flight.toNat true).length = cfg.iodepth
    rw [List.length_set]
    exact hbl
  · show (s.slotTime.set s.in_flight.toNat (clk s.tick)).length = cfg.iodepth
    rw [List.length_set]
    exact hsl
  · show s.in_flight + 1 = (countTrue (s.busy.set s.in_flight.toNat true) : ℤ)
    rw [hcount]
    push_cast
    omega
  · show s.in_flight + 1 = ((s.submitted + 1 : ℕ) : ℤ) - (s.completed : ℤ)
    push_cast
    omega
  · intro hf
    show s.submitted + 1 ≤ cfg.totalOps
    have h1 := hg.1
    omega
  · exact hre
  · exact hst
  · intro hm t ht
    exact (htb hm t ht).trans (hm (Nat.le_succ s.tick))
  · intro j hj
    show (s.busy.set s.in_flight.toNat true).getD j false = decide ((j : ℤ) < s.in_flight + 1)
    by_cases hji : j = s.in_flight.toNat
    · subst hji
      rw [getD_set_self _ _ _ _ hlen, hcast]
      have : s.in_flight < s.in_flight + 1 := by omega
      simp [this]
    · have hne : (j : ℤ) ≠ s.in_flight := by
        rw [← hcast]
        exact_mod_cast hji
      rw [getD_set_other _ _ _ _ _ (fun hh => hji hh.symm), hP j hj]
      exact decide_eq_decide.mpr (by omega)

theorem primeLoop_inv (cfg : EngineCfg) (clk : ℕ → ℤ) (dl : ℤ) :
    ∀ (n : ℕ) (s : EngineState), InvE cfg clk dl s → PrimePat cfg s → s.completed = 0 →
      InvE cfg clk dl (primeLoop cfg clk n s) ∧ PrimePat cfg (primeLoop cfg clk n s) ∧
      (primeLoop cfg clk n s).completed = 0
  | 0, s, hI, hP, hC => ⟨hI, hP, hC⟩
  | n + 1, s, hI, hP, hC => by
    by_cases hg : s.submitted < cfg.totalOps ∧ s.in_flight < (cfg.iodepth : ℤ)
    · have hstep := primeStep_inv cfg clk dl s hg hI hP hC
      simp only [primeLoop, if_pos hg]
      exact primeLoop_inv cfg clk dl n (primeStep clk s) hstep.1 hstep.2.1 hstep.2.2
    · simp only [primeLoop, if_neg hg]
      exact ⟨hI, hP, hC⟩

theorem primeLoop_exit (cfg : EngineCfg) (clk : ℕ → ℤ) :
    ∀ (n : ℕ) (s : EngineState), (cfg.iodepth : ℤ) ≤ s.in_flight + n →
      ¬ ((primeLoop cfg clk n s).submitted < cfg.totalOps ∧
         (primeLoop cfg clk n s).in_flight < (cfg.iodepth : ℤ))
  | 0, s, hn => by
    simp only [primeLoop]
    rintro ⟨-, h2⟩
    omega
  | n + 1, s, hn => by
    by_cases hg : s.submitted < cfg.totalOps ∧ s.in_flight < (cfg.iodepth : ℤ)
    · simp only [primeLoop, if_pos hg]
      refine primeLoop_exit cfg clk n (primeStep clk s) ?_
      have hstep : (primeStep clk s).in_flight = s.in_flight + 1 := rfl
      omega
    · simp only [primeLoop, if_neg hg]
      exact hg

theorem procCqe_inv (cfg : EngineCfg) (clk : ℕ → ℤ) (dl : ℤ) (c : Cqe)
    (s s' : EngineState) (h : procCqe cfg clk dl c s = .ok s')
    (hI : InvE cfg clk dl s) :
    InvE cfg clk dl s' ∧
    (cfg.timeBased = true → (0 < s.in_flight ∨ s.stopDecisions ≠ []) →
      (0 < s'.in_flight ∨ s'.stopDecisions ≠ [])) := by
  obtain ⟨hbl, hsl, hcnt, hacc, hsub, hre, hst, htb⟩ := hI
  unfold procCqe at h
  by_cases hres : c.res < 0
  · rw [if_pos hres] at h
    exact absurd h (by simp)
  rw [if_neg hres] at h
  by_cases hv : c.userData < cfg.iodepth ∧ s.busy.getD c.userData false = true
  swap
  · rw [if_neg hv] at h
    exact absurd h (by simp)
  rw [if_pos hv] at h
  have hulen : c.userData < s.busy.length := by
    rw [hbl]
    exact hv.1
  have hpos : 0 < countTrue s.busy := countTrue_pos_of_getD _ _ hv.2
  have hcf : countTrue (s.busy.set c.userData false) + 1 = countTrue s.busy :=
    countTrue_set_false _ _ hv.2
  have hgf : (s.busy.set c.userData false).getD c.userData false = false :=
    getD_set_self _ _ _ _ hulen
  have hulen2 : c.userData < (s.busy.set c.userData false).length := by
    rw [List.length_set]
    exact hulen
  have hct : countTrue ((s.busy.set c.userData false).set c.userData true)
      = countTrue (s.busy.set c.userData false) + 1 :=
    countTrue_set_true _ _ hulen2 hgf
  have hif1 : 1 ≤ s.in_flight := by
    rw [hcnt]
    exact_mod_cast hpos
  by_cases htm : cfg.timeBased = true
  · rw [if_pos htm] at h
    by_cases hdec : clk (completeSlot clk c s).tick < dl
    · rw [if_pos hdec] at h
      injection h with h2
      subst h2
      refine ⟨⟨?_, ?_, ?_, ?_, ?_, ?_, ?_, ?_⟩, ?_⟩
      · simp only [reissueDur, completeSlot, List.length_set]
        exact hbl
      · simp only [reissueDur, completeSlot, List.length_set]
        exact hsl
      · simp only [reissueDur, completeSlot]
        rw [hct]
        push_cast
        omega
      · simp only [reissueDur, completeSlot]
        push_cast
        omega
      · intro hf
        rw [hf] at htm
        cases htm
      · simp only [reissueDur, completeSlot]
        intro t ht
        rcases List.mem_append.mp ht with ht1 | ht2
        · exact hre t ht1
        · rw [List.mem_singleton.mp ht2]
          exact hdec
      · simp only [reissueDur, completeSlot]
        exact hst
      · simp only [reissueDur, completeSlot]
        intro hm t ht
        exact (htb hm t ht).trans (hm (by omega))
      · intro _ _
        left
        simp only [reissueDur, completeSlot]
        omega
    · rw [if_neg hdec] at h
      injection h with h2
      subst h2
      refine ⟨⟨?_, ?_, ?_, ?_, ?_, ?_, ?_, ?_⟩, ?_⟩
      · simp only [stopDur, completeSlot, List.length_set]
        exact hbl
      · simp only [stopDur, completeSlot]
        exact hsl
      · simp only [stopDur, completeSlot]
        omega
      · simp only [stopDur, completeSlot]
        push_cast
        omega
      · intro hf
        rw [hf] at htm
        cases htm
      · simp only [stopDur, completeSlot]
        exact hre
      · simp only [stopDur, completeSlot]
        intro t ht
        rcases List.mem_append.mp ht with ht1 | ht2
        · exact hst t ht1
        · rw [List.mem_singleton.mp ht2]
          exact not_lt.mp hdec
      · simp only [stopDur, completeSlot]
        intro hm t ht
        rcases List.mem_append.mp ht with ht1 | ht2
        · exact (htb hm t ht1).trans (hm (by omega))
        · rw [List.mem_singleton.mp ht2]
          exact hm (by omega)
      · intro _ _
        right
        simp only [stopDur, completeSlot]
        simp
  · rw [if_neg htm] at h
    simp only [Bool.not_eq_true] at htm
    by_cases hbs : (completeSlot clk c s).submitted < cfg.totalOps
    · rw [if_pos hbs] at h
      injection h with h2
      subst h2
      have hbs' : s.submitted < cfg.totalOps := hbs
      refine ⟨⟨?_, ?_, ?_, ?_, ?_, ?_, ?_, ?_⟩, ?_⟩
      · simp only [reissueByte, completeSlot, List.length_set]
        exact hbl
      · simp only [reissueByte, completeSlot, List.length_set]
        exact hsl
      · simp only [reissueByte, completeSlot]
        rw [hct]
        push_cast
        omega
      · simp only [reissueByte, completeSlot]
        push_cast
        omega
      · intro hf
        show s.submitted + 1 ≤ cfg.totalOps
        omega
      · simp only [reissueByte, completeSlot]
        exact hre
      · simp only [reissueByte, completeSlot]
        exact hst
      · simp only [reissueByte, completeSlot]
        intro hm t ht
        exact (htb hm t ht).trans (hm (by omega))
      · intro htt _
        rw [htm] at htt
        cases htt
    · rw [if_neg hbs] at h
      injection h with h2
      subst h2
      refine ⟨⟨?_, ?_, ?_, ?_, ?_, ?_, ?_, ?_⟩, ?_⟩
      · simp only [completeSlot, List.length_set]
        exact hbl
      · simp only [completeSlot]
        exact hsl
      · simp only [completeSlot]
        omega
      · simp only [completeSlot]
        push_cast
        omega
      · intro hf
        show s.submitted ≤ cfg.totalOps
        exact hsub hf
      · simp only [completeSlot]
        exact hre
      · simp only [completeSlot]
        exact hst
      · simp only [completeSlot]
        intro hm t ht
        exact (htb hm t ht).trans (hm (by omega))
      · intro htt _
        rw [htm] at htt
        cases htt

theorem procCqes_inv (cfg : EngineCfg) (clk : ℕ → ℤ) (dl : ℤ) :
    ∀ (cqes : List Cqe) (s f : EngineState) (obs : List EngineState),
      procCqes cfg clk dl cqes s = .ok (f, obs) → InvE cfg clk dl s →
      InvE cfg clk dl f ∧ (∀ x ∈ obs, InvE cfg clk dl x) ∧
      (cfg.timeBased = true → (0 < s.in_flight ∨ s.stopDecisions ≠ []) →
        (0 < f.in_flight ∨ f.stopDecisions ≠ []))
  | [], s, f, obs, h, hI => by
    simp only [procCqes] at h
    injection h with h2
    injection h2 with hf ho
    subst hf
    subst ho
    exact ⟨hI, by simp, fun _ hd => hd⟩
  | c :: cs, s, f, obs, h, hI => by
    simp only [procCqes] at h
    cases hstep : procCqe cfg clk dl c s with
    | error e =>
      simp only [hstep] at h
      exact absurd h (by simp)
    | ok s1 =>
      simp only [hstep] at h
      cases hrec : procCqes cfg clk dl cs s1 with
      | error e =>
        simp only [hrec, Except.map] at h
        exact absurd h (by simp)
      | ok fo =>
        obtain ⟨f1, obs1⟩ := fo
        simp only [hrec, Except.map] at h
        injection h with h2
        injection h2 with hf ho
        subst hf
        subst ho
        have hone := procCqe_inv cfg clk dl c s s1 hstep hI
        have hrest := procCqes_inv cfg clk dl cs s1 f1 obs1 hrec hone.1
        refine ⟨hrest.1, ?_, ?_⟩
        · intro x hx
          rcases List.mem_cons.mp hx with rfl | hx2
          · exact hone.1
          · exact hrest.2.1 x hx2
        · intro htt hd
          exact hrest.2.2 htt (hone.2 htt hd)

theorem mainLoop_inv (cfg : EngineCfg) (clk : ℕ → ℤ) (dl : ℤ) :
    ∀ (trace : List Iter) (s f : EngineState) (obs : List EngineState),
      mainLoop cfg clk dl trace s = .ok (f, obs) → InvE cfg clk dl s →
      InvE cfg clk dl f ∧ (∀ x ∈ obs, InvE cfg clk dl x) ∧
      loopCond cfg f = false ∧
      (cfg.timeBased = true → (0 < s.in_flight ∨ s.stopDecisions ≠ []) →
        (0 < f.in_flight ∨ f.stopDecisions ≠ []))
  | [], s, f, obs, h, hI => by
    simp only [mainLoop] at h
    by_cases hlc : loopCond cfg s = true
    · rw [if_pos hlc] at h
      exact absurd h (by simp)
    · rw [if_neg hlc] at h
      injection h with h2
      injection h2 with hf ho
      subst hf
      subst ho
      exact ⟨hI, by simp, by simpa using hlc, fun _ hd => hd⟩
  | it :: rest, s, f, obs, h, hI => by
    simp only [mainLoop] at h
    by_cases hlc : loopCond cfg s = true
    · rw [if_pos hlc] at h
      unfold iterStep at h
      cases hcw : checkWait cfg.mode it.ret1 it.ret2 with
      | some e =>
        simp only [hcw] at h
        exact absurd h (by simp)
      | none =>
        simp only [hcw] at h
        cases hpc : procCqes cfg clk dl it.cqes s with
        | error e =>
          simp only [hpc] at h
          exact absurd h (by simp)
        | ok so =>
          obtain ⟨s1, obs0⟩ := so
          simp only [hpc] at h
          cases hml : mainLoop cfg clk dl rest s1 with
          | error e =>
            simp only [hml, Except.map] at h
            exact absurd h (by simp)
          | ok fo =>
            obtain ⟨f1, obs1⟩ := fo
            simp only [hml, Except.map] at h
            injection h with h2
            injection h2 with hf ho
            subst hf
            subst ho
            have hone := procCqes_inv cfg clk dl it.cqes s s1 obs0 hpc hI
            have hrest := mainLoop_inv cfg clk dl rest s1 f1 obs1 hml hone.1
            refine ⟨hrest.1, ?_, hrest.2.2.1, ?_⟩
            · intro x hx
              rcases List.mem_append.mp hx with hx1 | hx2
              · exact hone.2.1 x hx1
              · exact hrest.2.1 x hx2
            · intro htt hd
              exact hrest.2.2.2 htt (hone.2.2 htt hd)
    · rw [if_neg hlc] at h
      injection h with h2
      injection h2 with hf ho
      subst hf
      subst ho
      exact ⟨hI, by simp, by simpa using hlc, fun _ hd => hd⟩

theorem runEngineFrom_inv (cfg : EngineCfg) (clk : ℕ → ℤ) (initRet : ℤ)
    (trace : List Iter) (dl : ℤ) (st : ℕ) (r : RunResult)
    (h : runEngineFrom cfg clk initRet trace dl st = .ok r) :
    InvE cfg clk dl r.final ∧ (∀ x ∈ r.obs, InvE cfg clk dl x) ∧
    loopCond cfg r.final = false ∧ r.deadline = dl ∧
    r.endTime = clk r.final.tick ∧ r.startTime = clk st ∧
    (0 < cfg.totalOps → 0 < cfg.iodepth → cfg.timeBased = true →
      (0 < r.final.in_flight ∨ r.final.stopDecisions ≠ [])) := by
  have hI0 : InvE cfg clk dl (initState cfg st) := by
    refine ⟨by simp [initState], by simp [initState], ?_, ?_, ?_, ?_, ?_, ?_⟩
    · show (0 : ℤ) = (countTrue (List.replicate cfg.iodepth false) : ℤ)
      rw [countTrue_replicate_false]
      rfl
    · show (0 : ℤ) = ((0 : ℕ) : ℤ) - ((0 : ℕ) : ℤ)
      norm_num
    · intro _
      exact Nat.zero_le _
    · intro t ht
      simp [initState] at ht
    · intro t ht
      simp [initState] at ht
    · intro _ t ht
      simp [initState] at ht
  have hP0 : PrimePat cfg (initState cfg st) := by
    intro j hj
    show (List.replicate cfg.iodepth false).getD j false = decide ((j : ℤ) < 0)
    rw [getD_replicate_false]
    have hjn : ¬ ((j : ℤ) < 0) := not_lt.mpr (Int.natCast_nonneg j)
    simp [hjn]
  have hprime := primeLoop_inv cfg clk dl cfg.iodepth (initState cfg st) hI0 hP0 rfl
  unfold runEngineFrom at h
  by_cases hir : initRet < 0
  · rw [if_pos hir] at h
    exact absurd h (by simp)
  rw [if_neg hir] at h
  set sp := primeLoop cfg clk cfg.iodepth (initState cfg st) with hsp
  cases hml : mainLoop cfg clk dl trace sp with
  | error e =>
    simp only [hml] at h
    exact absurd h (by simp)
  | ok fo =>
    obtain ⟨f, obs⟩ := fo
    simp only [hml] at h
    injection h with h2
    subst h2
    have hm := mainLoop_inv cfg clk dl trace sp f obs hml hprime.1
    refine ⟨hm.1, ?_, hm.2.2.1, rfl, rfl, rfl, ?_⟩
    · intro x hx
      rcases List.mem_cons.mp hx with rfl | hx2
      · exact hprime.1
      · exact hm.2.1 x hx2
    · intro hto hD htm
      have hexit := primeLoop_exit cfg clk cfg.iodepth (initState cfg st)
        (by simp [initState])
      rw [← hsp] at hexit
      obtain ⟨hbl2, hsl2, hcnt2, hacc2, _, _, _, _⟩ := hprime.1
      have hspc : sp.completed = 0 := hprime.2.2
      have hpos : 0 < sp.in_flight := by
        by_contra hz
        push_neg at hz
        have h0 : sp.in_flight = 0 :=
          le_antisymm hz (by rw [hcnt2]; exact Int.natCast_nonneg _)
        have hsub0 : sp.submitted = 0 := by
          rw [h0, hspc] at hacc2
          omega
        refine hexit ⟨?_, ?_⟩
        · rw [hsub0]
          exact hto
        · rw [h0]
          exact_mod_cast hD
      exact hm.2.2.2 htm (Or.inl hpos)

theorem runEngine_inv (cfg : EngineCfg) (clk : ℕ → ℤ) (initRet : ℤ)
    (trace : List Iter) (r : RunResult)
    (h : runEngine cfg clk initRet trace = .ok r) :
    InvE cfg clk r.deadline r.final ∧ (∀ x ∈ r.obs, InvE cfg clk r.deadline x) ∧
    loopCond cfg r.final = false ∧ r.endTime = clk r.final.tick ∧
    (cfg.timeBased = true → r.deadline = clk 0 + cfg.runtimeNs) ∧
    (0 < cfg.totalOps → 0 < cfg.iodepth → cfg.timeBased = true →
      (0 < r.final.in_flight ∨ r.final.stopDecisions ≠ [])) := by
  unfold runEngine at h
  by_cases htm : cfg.timeBased = true
  · rw [if_pos htm] at h
    have hf := runEngineFrom_inv cfg clk initRet trace (clk 0 + cfg.runtimeNs) 1 r h
    rw [hf.2.2.2.1]
    exact ⟨hf.1, hf.2.1, hf.2.2.1, hf.2.2.2.2.1, fun _ => rfl, hf.2.2.2.2.2.2⟩
  · rw [if_neg htm] at h
    have hf := runEngineFrom_inv cfg clk initRet trace 0 0 r h
    rw [hf.2.2.2.1]
    exact ⟨hf.1, hf.2.1, hf.2.2.1, hf.2.2.2.2.1, fun hc => absurd hc htm,
      hf.2.2.2.2.2.2⟩

/-! ## C1, C2, C4: the engine loop claims -/

/-- C1: for every run that completes (any configuration, clock and
kernel-interaction trace), every observable boundary state — after the prime
phase and after each processed completion — satisfies
`0 ≤ in_flight ≤ iodepth` and `in_flight = submitted - completed`. -/
theorem engine_queue_depth_invariant (cfg : EngineCfg) (clk : ℕ → ℤ) (initRet : ℤ)
    (trace : List Iter) (r : RunResult) (s : EngineState)
    (h : runEngine cfg clk initRet trace = .ok r) (hs : s ∈ r.obs) :
    0 ≤ s.in_flight ∧ s.in_flight ≤ (cfg.iodepth : ℤ) ∧
    s.in_flight = (s.submitted : ℤ) - (s.completed : ℤ) := by
  have hr := runEngine_inv cfg clk initRet trace r h
  obtain ⟨hbl, hsl, hcnt, hacc, _, _, _, _⟩ := hr.2.1 s hs
  refine ⟨?_, ?_, hacc⟩
  · rw [hcnt]
    exact Int.natCast_nonneg _
  · rw [hcnt]
    have h1 : countTrue s.busy ≤ s.busy.length := countTrue_le_length s.busy
    rw [hbl] at h1
    exact_mod_cast h1

/-- Witness for C1: the primed boundary state of a completed
`--size=4096 --bs=4096 --iodepth=1 --submit=sqpoll` run. -/
theorem engine_queue_depth_invariant_witness :
    0 ≤ (runOk (runEngine cfgW1 clkZero 1 traceW1)).primed.in_flight ∧
    (runOk (runEngine cfgW1 clkZero 1 traceW1)).primed.in_flight ≤ (cfgW1.iodepth : ℤ) ∧
    (runOk (runEngine cfgW1 clkZero 1 traceW1)).primed.in_flight =
      ((runOk (runEngine cfgW1 clkZero 1 traceW1)).primed.submitted : ℤ) -
        ((runOk (runEngine cfgW1 clkZero 1 traceW1)).primed.completed : ℤ) :=
  engine_queue_depth_invariant cfgW1 clkZero 1 traceW1
    (runOk (runEngine cfgW1 clkZero 1 traceW1))
    ((runOk (runEngine cfgW1 clkZero 1 traceW1)).primed) (by rfl) (by decide)

/-- C2: every completed byte-budget run with budget `B` and block size `S`
submits and completes exactly `B / S` operations — the budget is rounded
down by natural division — and exits the loop with `in_flight = 0`. -/
theorem engine_byte_budget_termination (B S D : ℕ) (m : SubmitMode) (clk : ℕ → ℤ)
    (initRet : ℤ) (trace : List Iter) (r : RunResult)
    (h : runEngine (mkEngineCfg B 0 D S m) clk initRet trace = .ok r) :
    r.final.submitted = B / S ∧ r.final.completed = B / S ∧ r.final.in_flight = 0 := by
  have htb : (mkEngineCfg B 0 D S m).timeBased = false := by
    simp [mkEngineCfg]
  have hto : (mkEngineCfg B 0 D S m).totalOps = B / S := by
    simp [mkEngineCfg]
  have hr := runEngine_inv _ clk initRet trace r h
  obtain ⟨_, _, hcnt, hacc, hsub, _, _, _⟩ := hr.1
  have hlc := hr.2.2.1
  simp only [loopCond, htb, Bool.not_false, Bool.true_and, Bool.or_eq_false_iff,
    decide_eq_false_iff_not, not_lt, hto] at hlc
  have hsub2 := hsub htb
  rw [hto] at hsub2
  have hif0 : r.final.in_flight = 0 :=
    le_antisymm hlc.1 (by rw [hcnt]; exact Int.natCast_nonneg _)
  have heq : r.final.submitted = r.final.completed := by
    rw [hif0] at hacc
    omega
  have hc2 := hlc.2
  refine ⟨by omega, by omega, hif0⟩

/-- Witness for C2: the `--size=8192 --bs=4096 --iodepth=2 --submit=submit`
run completes exactly `8192 / 4096 = 2` operations. -/
theorem engine_byte_budget_termination_witness :
    (runOk (runEngine cfgW2 clkZero 1 traceW2)).final.submitted = 8192 / 4096 ∧
    (runOk (runEngine cfgW2 clkZero 1 traceW2)).final.completed = 8192 / 4096 ∧
    (runOk (runEngine cfgW2 clkZero 1 traceW2)).final.in_flight = 0 :=
  engine_byte_budget_termination 8192 4096 2 .submit clkZero 1 traceW2
    (runOk (runEngine cfgW2 clkZero 1 traceW2)) (by rfl)

/-- C4 counterexample: two completed duration runs of `T = 1` second with
monotone clocks.  With `clkA`, whose reissue decision reads
`999999999 < 10^9` but whose stamp (the next clock read) is `1000000001`, a
submission is stamped with `submit_time > start + T` (start = 0).  With
`clkB`, the deadline is computed at time 0 while `start_time` is read at
`9·10^8`, and the run drains at `1.05·10^9`, so `elapsed = 1.5·10^8 < T`. -/
theorem duration_run_counterexample :
    isOkRun (runEngine cfgDur clkA 1 traceA) = true ∧
    (1000000001 : ℤ) ∈ (runOk (runEngine cfgDur clkA 1 traceA)).final.stamps ∧
    (runOk (runEngine cfgDur clkA 1 traceA)).startTime + 1 * 1000000000
      < 1000000001 ∧
    isOkRun (runEngine cfgDur clkB 1 traceB) = true ∧
    (runOk (runEngine cfgDur clkB 1 traceB)).endTime -
      (runOk (runEngine cfgDur clkB 1 traceB)).startTime < 1 * 1000000000 ∧
    ((List.range 9).all fun n => decide (clkA n ≤ clkA (n + 1))) = true ∧
    ((List.range 6).all fun n => decide (clkB n ≤ clkB (n + 1))) = true := by
  refine ⟨rfl, ?_, ?_, rfl, ?_, ?_, ?_⟩ <;> decide

/-- C4 amended: in a completed duration run of `T` seconds (deadline = the
line-599 clock reading plus `T`), the engine stops reissuing at the deadline —
every recorded reissue decision read a clock value strictly before the
deadline — and keeps reaping until `in_flight = 0`; for a monotone clock the
end timestamp is at least the deadline.  (The claim's stronger forms fail:
the `submit_time` stamp is taken one clock read after its reissue decision
and may exceed `start + T`, and `start_time` is read after the deadline is
computed, so `elapsed ≥ T` need not hold; see the counterexample.) -/
theorem engine_duration_amended (T : ℤ) (D S : ℕ) (m : SubmitMode) (clk : ℕ → ℤ)
    (initRet : ℤ) (trace : List Iter) (r : RunResult)
    (hT : 0 < T) (hD : 0 < D) (hclk : Monotone clk)
    (h : runEngine (mkEngineCfg 0 T D S m) clk initRet trace = .ok r) :
    (∀ t ∈ r.final.reissueDecisions, t < r.deadline) ∧
    r.final.in_flight = 0 ∧
    r.deadline = clk 0 + T * 1000000000 ∧
    r.deadline ≤ r.endTime := by
  have htb : (mkEngineCfg 0 T D S m).timeBased = true := by
    simp [mkEngineCfg, hT]
  have hto : 0 < (mkEngineCfg 0 T D S m).totalOps := by
    simp [mkEngineCfg, hT]
  have hrn : (mkEngineCfg 0 T D S m).runtimeNs = T * 1000000000 := by
    simp [mkEngineCfg, hT]
  have hr := runEngine_inv _ clk initRet trace r h
  obtain ⟨_, _, hcnt, hacc, _, hre, hst, htbnd⟩ := hr.1
  have hlc := hr.2.2.1
  simp only [loopCond, htb, Bool.not_true, Bool.false_and, Bool.or_false,
    decide_eq_false_iff_not, not_lt] at hlc
  have hif0 : r.final.in_flight = 0 :=
    le_antisymm hlc (by rw [hcnt]; exact Int.natCast_nonneg _)
  have hdl : r.deadline = clk 0 + T * 1000000000 := by
    rw [hr.2.2.2.2.1 htb, hrn]
  refine ⟨hre, hif0, hdl, ?_⟩
  have hdrain := hr.2.2.2.2.2 hto hD htb
  rcases hdrain with hgt | hne
  · rw [hif0] at hgt
    exact absurd hgt (by norm_num)
  · obtain ⟨t, ht⟩ := List.exists_mem_of_ne_nil _ hne
    have h1 : r.deadline ≤ t := hst t ht
    have h2 : t ≤ clk r.final.tick := htbnd hclk t ht
    rw [hr.2.2.2.1]
    exact h1.trans h2

theorem clkLin_mono : Monotone clkLin := by
  intro a b hab
  unfold clkLin
  exact mul_le_mul_of_nonneg_right (by exact_mod_cast hab) (by norm_num)

/-- Witness for C4 amended: a one-second duration run under the
second-per-tick clock drains with `in_flight = 0` and ends at or after the
deadline. -/
theorem engine_duration_amended_witness :
    (runOk (runEngine cfgDur clkLin 1 traceB)).final.in_flight = 0 ∧
    (runOk (runEngine cfgDur clkLin 1 traceB)).deadline ≤
      (runOk (runEngine cfgDur clkLin 1 traceB)).endTime :=
  ⟨(engine_duration_amended 1 1 4096 .submitAndWait clkLin 1 traceB
      (runOk (runEngine cfgDur clkLin 1 traceB)) (by norm_num) (by norm_num)
      clkLin_mono (by rfl)).2.1,
   (engine_duration_amended 1 1 4096 .submitAndWait clkLin 1 traceB
      (runOk (runEngine cfgDur clkLin 1 traceB)) (by norm_num) (by norm_num)
      clkLin_mono (by rfl)).2.2.2⟩

end Rio
